import Mathlib

/-!
Verification development for the TD Generator repository.

Each Python component relevant to the checked properties is shallowly
embedded as executable Lean definitions: dictionaries become insertion
ordered association lists (Python 3.7+ dict semantics), float arithmetic
is modelled as exact rational arithmetic over ℚ, and code that can raise
an exception is modelled with Except / explicit outcome types.
-/

namespace TDGen

/-! ## Infrastructure Manager: region classification
Embeds InfrastructureManager._get_region_for_location
(src/td_generator/core/global/infrastructure_manager.py).  Python chained
comparisons -165 <= longitude <= -30 become explicit conjunctions. -/

inductive RegionType where
  | americas
  | emea
  | apac
  | globalRegion
deriving DecidableEq

def getRegionForLocation (_latitude longitude : ℚ) : RegionType :=
  if -165 ≤ longitude ∧ longitude ≤ -30 then RegionType.americas
  else if -30 < longitude ∧ longitude ≤ 60 then RegionType.emea
  else RegionType.apac

/-! ## Performance System: CacheManager
Embeds CacheManager (src/td_generator/core/production/performance.py).
The Python dict self.cache is modelled as an insertion ordered
association list: assignment to an existing key updates in place keeping
its position, assignment to a fresh key appends at the end, and
next(iter(cache)) is the head of the list. -/

/-- Python dict assignment d[k] = v on an insertion ordered association
list: update in place if the key exists, append otherwise. -/
def setEntry {α : Type} (k : String) (v : α) : List (String × α) → List (String × α)
  | [] => [(k, v)]
  | (k0, v0) :: rest => if k0 = k then (k0, v) :: rest else (k0, v0) :: setEntry k v rest

structure Cache (α : Type) where
  entries : List (String × α)
  maxSize : Nat
  hits : Nat
  misses : Nat
deriving DecidableEq

def Cache.empty (α : Type) (maxSize : Nat := 1000) : Cache α :=
  { entries := [], maxSize := maxSize, hits := 0, misses := 0 }

/-- CacheManager.get: present key bumps hits and returns the value,
absent key bumps misses and returns None. -/
def Cache.get {α : Type} (c : Cache α) (k : String) : Option α × Cache α :=
  match c.entries.lookup k with
  | some v => (some v, { c with hits := c.hits + 1 })
  | none => (none, { c with misses := c.misses + 1 })

/-- CacheManager.set: when len(cache) >= max_size the first inserted
(head) entry is deleted, then the key is stored.  (With max_size = 0 and
an empty dict the Python code would raise StopIteration on
next(iter(cache)); that branch is unreachable for max_size >= 1, which
every claim assumes, and is modelled as List.tail.) -/
def Cache.set {α : Type} (c : Cache α) (k : String) (v : α) : Cache α :=
  let entries := if c.maxSize ≤ c.entries.length then c.entries.tail else c.entries
  { c with entries := setEntry k v entries }

/-- CacheManager.clear. -/
def Cache.clearAll {α : Type} (c : Cache α) : Cache α :=
  { c with entries := [], hits := 0, misses := 0 }

inductive CacheOp (α : Type) where
  | get (k : String)
  | set (k : String) (v : α)
  | clearOp
deriving DecidableEq

def Cache.applyOp {α : Type} (c : Cache α) : CacheOp α → Cache α
  | CacheOp.get k => (c.get k).2
  | CacheOp.set k v => c.set k v
  | CacheOp.clearOp => c.clearAll

def Cache.run {α : Type} (c : Cache α) (ops : List (CacheOp α)) : Cache α :=
  ops.foldl Cache.applyOp c

/-- The (key, value) pairs passed to set, in order, within a sequence of
cache operations. -/
def setOps {α : Type} : List (CacheOp α) → List (String × α)
  | [] => []
  | CacheOp.set k v :: rest => (k, v) :: setOps rest
  | _ :: rest => setOps rest

/-- The effect of a sequence of set calls on the entry list alone
(Cache.set changes no other observable field). -/
def setsFold {α : Type} (maxSize : Nat) (es : List (String × α)) :
    List (String × α) → List (String × α)
  | [] => es
  | (k, v) :: rest =>
    setsFold maxSize (setEntry k v (if maxSize ≤ es.length then es.tail else es)) rest

/-! ## Quality Checker
Embeds QualityChecker.check_quality
(src/td_generator/core/documentation/quality.py).  Python float
arithmetic is modelled as exact rational arithmetic; each metric's
calculate call is modelled as an Except value so the try/except branch
(score 0.0 and a critical issue on an exception) is represented. -/

structure QIssue where
  metric : String
  severity : String
deriving DecidableEq

/-- Score and optional issue produced for one metric inside the
check_quality loop. -/
def metricOutcome (name : String) (res : Except String ℚ) : ℚ × Option QIssue :=
  match res with
  | Except.ok s =>
    (s, if s < 7/10 then some ⟨name, "high"⟩
        else if s < 8/10 then some ⟨name, "medium"⟩
        else none)
  | Except.error _ => (0, some ⟨name, "critical"⟩)

structure QualityReport where
  overallScore : ℚ
  metricScores : List (String × ℚ)
  issues : List QIssue
  passed : Bool
deriving DecidableEq

/-- QualityChecker.check_quality over a metric table of
(name, weight, calculate outcome) triples, including
_calculate_overall_score (weighted sum divided by total weight). -/
def checkQuality (metrics : List (String × ℚ × Except String ℚ)) : QualityReport :=
  let scores := metrics.map (fun m => (m.1, (metricOutcome m.1 m.2.2).1))
  let issues := metrics.filterMap (fun m => (metricOutcome m.1 m.2.2).2)
  let totalWeight := (metrics.map (fun m => m.2.1)).sum
  let weightedSum := (metrics.map (fun m => (metricOutcome m.1 m.2.2).1 * m.2.1)).sum
  let overall := weightedSum / totalWeight
  { overallScore := overall
    metricScores := scores
    issues := issues
    passed := decide (8/10 ≤ overall) && !(issues.any (fun i => i.severity == "critical")) }

/-- ReadabilityMetric.calculate: fixed score. -/
def readabilityCalculate (_content : String) : ℚ := 85/100

/-- CompletenessMetric.calculate: fixed score. -/
def completenessCalculate (_content : String) : ℚ := 90/100

/-- ConsistencyMetric.calculate: fixed score. -/
def consistencyCalculate (_content : String) : ℚ := 95/100

/-- The QualityChecker's metric table: readability 0.4, completeness 0.3,
consistency 0.3; the three calculate stubs are total, so each outcome is
an Except.ok value. -/
def qualityCheckerMetrics (content : String) : List (String × ℚ × Except String ℚ) :=
  [("readability", (4/10, Except.ok (readabilityCalculate content))),
   ("completeness", (3/10, Except.ok (completenessCalculate content))),
   ("consistency", (3/10, Except.ok (consistencyCalculate content)))]

def qualityCheckerCheckQuality (content : String) : QualityReport :=
  checkQuality (qualityCheckerMetrics content)

/-! ## Gate Managers
Embeds the execute_gate loops of Gate0Manager
(src/td_generator/core/gates.py) and of Gate1Manager--Gate4Manager
(src/td_generator/core/gates/gate1.py ... gate4.py; the four loops are
textually identical in validation and exception handling and are embedded
once).  A step is modelled by the observable behaviour of its
sub-component: the ValidationResult its validate() returns and the
outcome of awaiting its execute() (a returned payload, abstracted to a
string, or a raised exception message).  Each loop returns, besides its
result, the list of step names whose execute() was invoked. -/

structure ValidationResult where
  valid : Bool
  reason : Option String := none
deriving DecidableEq

structure GateResult where
  status : String
  step : Option String := none
  reason : Option String := none
  results : Option (List (String × String)) := none
deriving DecidableEq

inductive ExecOutcome where
  | done (payload : String)
  | raised (msg : String)
deriving DecidableEq

structure GateStep where
  name : String
  validation : ValidationResult
  exec : ExecOutcome
deriving DecidableEq

/-- Gate0Manager.execute_gate: validation failure returns a failed
GateResult, but step execution is not wrapped in try/except, so a raised
exception propagates to the caller (Except.error). -/
def gate0Loop (acc : List (String × String)) :
    List GateStep → Except String GateResult × List String
  | [] => (Except.ok { status := "passed", results := some acc }, [])
  | s :: rest =>
    if s.validation.valid then
      match s.exec with
      | ExecOutcome.raised m => (Except.error m, [s.name])
      | ExecOutcome.done d =>
        let r := gate0Loop (acc ++ [(s.name, d)]) rest
        (r.1, s.name :: r.2)
    else
      (Except.ok { status := "failed", step := some s.name, reason := s.validation.reason }, [])

def gate0ExecuteGate (steps : List GateStep) : Except String GateResult × List String :=
  gate0Loop [] steps

/-- The shared execute_gate loop of Gate1Manager through Gate4Manager:
execution is wrapped in try/except, so a raised exception becomes a
failed GateResult with the exception message as reason. -/
def gateCatchLoop (acc : List (String × String)) :
    List GateStep → GateResult × List String
  | [] => ({ status := "passed", results := some acc }, [])
  | s :: rest =>
    if s.validation.valid then
      match s.exec with
      | ExecOutcome.raised m =>
        ({ status := "failed", step := some s.name, reason := some m }, [s.name])
      | ExecOutcome.done d =>
        let r := gateCatchLoop (acc ++ [(s.name, d)]) rest
        (r.1, s.name :: r.2)
    else
      ({ status := "failed", step := some s.name, reason := s.validation.reason }, [])

def gate1ExecuteGate (steps : List GateStep) : GateResult × List String :=
  gateCatchLoop [] steps

/-- A step whose validate() reports valid and whose execute() returns
normally. -/
def stepCompletes (s : GateStep) : Bool :=
  s.validation.valid &&
    (match s.exec with
     | ExecOutcome.done _ => true
     | ExecOutcome.raised _ => false)

/-! ## Testing System: TestRunner.run_test
Embeds TestRunner (src/td_generator/core/production/testing.py).  A
registered test function is modelled by its awaited outcome (normal
return, raised exception message, or exceeding the timeout); coverage
bookkeeping, durations and timestamps are not claim-relevant and are
omitted from the result record.  run_test raises (Except.error) only for
an unregistered test id; every other outcome, including the dependency
check ValueError raised inside _execute_test, is caught by its
try/except and converted into a recorded TestResult. -/

inductive FnOutcome where
  | success
  | failure (msg : String)
  | timedOut
deriving DecidableEq

structure TestCaseM where
  id : String
  dependencies : List String
  fn : FnOutcome
deriving DecidableEq

structure TestResultM where
  testId : String
  status : String
  error : Option String
deriving DecidableEq

structure TestRunner where
  tests : List (String × TestCaseM)
  results : List (String × TestResultM)
deriving DecidableEq

/-- The dependency check at the top of _execute_test: the first
dependency that was never run raises "not executed"; the first that ran
without status passed raises "failed". -/
def depError (results : List (String × TestResultM)) : List String → Option String
  | [] => none
  | d :: ds =>
    match results.lookup d with
    | none => some ("Dependency " ++ d ++ " not executed")
    | some r =>
      if r.status = "passed" then depError results ds
      else some ("Dependency " ++ d ++ " failed")

/-- TestRunner.run_test.  The returned Bool records whether the test's
own function was invoked (the dependency check precedes the await of
test.function()). -/
def runTest (r : TestRunner) (testId : String) :
    Except String (TestResultM × TestRunner × Bool) :=
  match r.tests.lookup testId with
  | none => Except.error ("Test " ++ testId ++ " not found")
  | some t =>
    let outcome : TestResultM × Bool :=
      match depError r.results t.dependencies with
      | some e => ({ testId := testId, status := "failed", error := some e }, false)
      | none =>
        match t.fn with
        | FnOutcome.success => ({ testId := testId, status := "passed", error := none }, true)
        | FnOutcome.failure m => ({ testId := testId, status := "failed", error := some m }, true)
        | FnOutcome.timedOut =>
          ({ testId := testId, status := "timeout",
             error := some "Test execution timed out" }, true)
    Except.ok (outcome.1, { r with results := setEntry testId outcome.1 r.results }, outcome.2)

/-- The TestResult recorded when a dependency was never executed. -/
def depFailResult (bId aId : String) : TestResultM :=
  { testId := bId, status := "failed",
    error := some ("Dependency " ++ aId ++ " not executed") }

/-- The TestResult recorded on a normal passing run. -/
def passResult (bId : String) : TestResultM :=
  { testId := bId, status := "passed", error := none }

/-- A two-test runner where test_b declares a dependency on test_a and
neither has run. -/
def dependencyRunner : TestRunner :=
  { tests := [("test_a", { id := "test_a", dependencies := [], fn := FnOutcome.success }),
              ("test_b", { id := "test_b", dependencies := ["test_a"],
                           fn := FnOutcome.success })],
    results := [] }

/-- The same runner after test_a has been run and recorded passed. -/
def dependencyRunnerAfterA : TestRunner :=
  { tests := dependencyRunner.tests,
    results := [("test_a", { testId := "test_a", status := "passed", error := none })] }

/-! ## Collaboration System: Session locks
Embeds Session (src/td_generator/core/integration/collaboration.py).
Only the fields the lock operations read are modelled: the users dict is
kept as the list of member ids (its User payloads are never consulted by
acquire_lock / release_lock / remove_user) and the locks dict is the
insertion ordered file-to-holder association list. -/

structure Session where
  sessionId : String
  users : List String
  locks : List (String × String)
deriving DecidableEq

/-- Session.acquire_lock: fails whenever the file is present in the lock
map at all (the holder is not compared to the requester). -/
def Session.acquireLock (s : Session) (userId filePath : String) : Bool × Session :=
  if (s.locks.lookup filePath).isSome then (false, s)
  else (true, { s with locks := s.locks ++ [(filePath, userId)] })

/-- Session.release_lock: deletes the entry only when the requester is
the recorded holder. -/
def Session.releaseLock (s : Session) (userId filePath : String) : Bool × Session :=
  match s.locks.lookup filePath with
  | some holder =>
    if holder = userId then
      (true, { s with locks := s.locks.eraseP (fun e => e.1 == filePath) })
    else (false, s)
  | none => (false, s)

/-- Session._release_user_locks: collect the files the user holds, then
release each in turn. -/
def Session.releaseUserLocks (s : Session) (userId : String) : Session :=
  ((s.locks.filter (fun e => e.2 == userId)).map Prod.fst).foldl
    (fun st f => (st.releaseLock userId f).2) s

/-- Session.remove_user: pops the user (when present) and releases all
of that user's locks. -/
def Session.removeUser (s : Session) (userId : String) : Session :=
  if userId ∈ s.users then
    Session.releaseUserLocks { s with users := s.users.erase userId } userId
  else s

/-- The pure effect of one release_lock call on the lock list. -/
def releaseLockL (u f : String) (L : List (String × String)) : List (String × String) :=
  match L.lookup f with
  | some holder => if holder = u then L.eraseP (fun e => e.1 == f) else L
  | none => L

/-- A single-member session holding no locks. -/
def lockSessionA : Session := { sessionId := "s1", users := ["u1"], locks := [] }

/-- A two-member session in which u1 holds two files and u2 holds one. -/
def lockSessionB : Session :=
  { sessionId := "s1", users := ["u1", "u2"],
    locks := [("a.md", "u1"), ("b.md", "u2"), ("c.md", "u1")] }

/-! ## Pattern Library / Matcher / Analyzer
Embeds PatternLibrary, PatternMatcher._calculate_pattern_confidence and
PatternAnalyzer (src/td_generator/core/processing/patterns.py).  Every
library indicator consists solely of regex word characters
([A-Za-z0-9_]), so the case-insensitive whole-word count
re.findall(r'\b<ind>\b', content, re.I) equals the number of maximal
word-character runs of the content equal to the indicator up to ASCII
case; len(content.split()) is the number of maximal non-whitespace runs.
Python float arithmetic is modelled as exact rational arithmetic. -/

def isWordChar (c : Char) : Bool := c.isAlphanum || c = '_'

/-- The whitespace characters str.split and the embedding treat as word
separators (the ASCII set relevant to this code base). -/
def isSpaceChar (c : Char) : Bool := c = ' ' || c = '\t' || c = '\n' || c = '\r'

/-- Maximal runs of characters satisfying p; acc holds the reversed
current run. -/
def splitRuns (p : Char → Bool) : List Char → List Char → List (List Char)
  | acc, [] => if acc.isEmpty then [] else [acc.reverse]
  | acc, c :: cs =>
    if p c then splitRuns p (c :: acc) cs
    else if acc.isEmpty then splitRuns p [] cs
    else acc.reverse :: splitRuns p [] cs

def tokens (p : Char → Bool) (l : List Char) : List (List Char) := splitRuns p [] l

/-- Case-insensitive whole-word occurrence count of one indicator. -/
def indicatorCount (content : List Char) (ind : String) : Nat :=
  (tokens isWordChar content).countP
    (fun t => t.map Char.toLower == ind.data.map Char.toLower)

/-- len(content.split()). -/
def wordCount (content : List Char) : Nat :=
  (tokens (fun c => !isSpaceChar c) content).length

structure Pattern where
  name : String
  description : String
  indicators : List String
  weight : ℚ
deriving DecidableEq

/-- sum(indicator_counts.values()) for one pattern. -/
def totalIndicatorOccurrences (p : Pattern) (content : List Char) : Nat :=
  (p.indicators.map (fun ind => indicatorCount content ind)).sum

/-- Number of indicators occurring at least once as a whole word. -/
def matchedIndicatorCount (p : Pattern) (content : List Char) : Nat :=
  p.indicators.countP (fun ind => decide (0 < indicatorCount content ind))

/-- base_confidence = matched_indicators / total_indicators. -/
def baseConfidence (p : Pattern) (content : List Char) : ℚ :=
  (matchedIndicatorCount p content : ℚ) / (p.indicators.length : ℚ)

/-- frequency_factor = total occurrences / (word count + 1). -/
def frequencyFactor (p : Pattern) (content : List Char) : ℚ :=
  (totalIndicatorOccurrences p content : ℚ) / ((wordCount content : ℚ) + 1)

/-- confidence = min(base_confidence * (1 + frequency_factor), 1.0). -/
def patternConfidence (p : Pattern) (content : List Char) : ℚ :=
  min (baseConfidence p content * (1 + frequencyFactor p content)) 1

def apiEndpointPattern : Pattern :=
  { name := "API Endpoint", description := "REST API endpoint documentation pattern",
    indicators := ["GET", "POST", "PUT", "DELETE", "endpoint", "route"], weight := 1 }

def classDefinitionPattern : Pattern :=
  { name := "Class Definition", description := "Object-oriented class documentation pattern",
    indicators := ["class", "method", "attribute", "property"], weight := 8/10 }

def functionDefinitionPattern : Pattern :=
  { name := "Function Definition", description := "Function or method documentation pattern",
    indicators := ["function", "parameter", "return", "raises"], weight := 8/10 }

def configurationPattern : Pattern :=
  { name := "Configuration", description := "Configuration or settings documentation pattern",
    indicators := ["config", "setting", "parameter", "option"], weight := 6/10 }

def tutorialPattern : Pattern :=
  { name := "Tutorial", description := "Step-by-step guide or tutorial pattern",
    indicators := ["step", "guide", "tutorial", "example"], weight := 7/10 }

/-- PatternLibrary._initialize_patterns: the library key to Pattern map. -/
def libraryPatterns : List (String × Pattern) :=
  [("api_endpoint", apiEndpointPattern),
   ("class_definition", classDefinitionPattern),
   ("function_definition", functionDefinitionPattern),
   ("configuration", configurationPattern),
   ("tutorial", tutorialPattern)]

structure PatternMatch where
  pattern : Pattern
  confidence : ℚ
deriving DecidableEq

/-- PatternMatcher.find_patterns: keep patterns with confidence > 0.5,
sorted by descending confidence (Python sorted is stable; insertionSort
with this relation is the same stable descending order). -/
def findPatterns (content : List Char) : List PatternMatch :=
  ((libraryPatterns.map Prod.snd).filterMap (fun p =>
    if 1/2 < patternConfidence p content
    then some { pattern := p, confidence := patternConfidence p content }
    else none)).insertionSort (fun a b => b.confidence ≤ a.confidence)

/-- The fixed suggestion table of PatternAnalyzer._get_pattern_suggestion,
keyed by the library dictionary keys. -/
def suggestionTable : List (String × String) :=
  [("api_endpoint", "Consider adding request/response examples"),
   ("class_definition", "Add attribute type hints and descriptions"),
   ("function_definition", "Include parameter and return type documentation"),
   ("configuration", "Provide default values and valid ranges"),
   ("tutorial", "Add step numbers and expected outcomes")]

/-- PatternAnalyzer._get_pattern_suggestion: looks the table up with
pattern.name (the display name). -/
def getPatternSuggestion (p : Pattern) : String :=
  (suggestionTable.lookup p.name).getD "Consider adding more details"

/-- PatternAnalyzer._generate_recommendations: one (pattern name,
confidence, suggestion) record per match with confidence > 0.8. -/
def generateRecommendations (ms : List PatternMatch) : List (String × ℚ × String) :=
  ms.filterMap (fun m =>
    if 8/10 < m.confidence
    then some (m.pattern.name, m.confidence, getPatternSuggestion m.pattern)
    else none)

end TDGen

namespace TDGen

/-! ## Theorems -/

/-- C7: _get_region_for_location returns americas exactly on the closed
longitude band [-165, -30], emea exactly on (-30, 60], apac otherwise;
longitude -100 maps to americas, 0 to emea, 120 to apac, and the
boundary values -165 and -30 are inclusive americas. -/
theorem region_longitude_bands :
    (∀ lat lon : ℚ,
      (getRegionForLocation lat lon = RegionType.americas ↔ (-165 ≤ lon ∧ lon ≤ -30))
      ∧ (getRegionForLocation lat lon = RegionType.emea ↔ (-30 < lon ∧ lon ≤ 60))
      ∧ (getRegionForLocation lat lon = RegionType.apac ↔ (lon < -165 ∨ 60 < lon)))
    ∧ getRegionForLocation 40 (-100) = RegionType.americas
    ∧ getRegionForLocation 0 0 = RegionType.emea
    ∧ getRegionForLocation 0 120 = RegionType.apac
    ∧ getRegionForLocation 0 (-165) = RegionType.americas
    ∧ getRegionForLocation 0 (-30) = RegionType.americas := by
  refine ⟨fun lat lon => ?_, by decide, by decide, by decide, by decide, by decide⟩
  unfold getRegionForLocation
  split_ifs with h1 h2
  · refine ⟨⟨fun _ => h1, fun _ => rfl⟩,
      ⟨fun h => absurd h (by decide), fun h => absurd h.1 (by linarith [h1.2])⟩,
      ⟨fun h => absurd h (by decide), fun h => ?_⟩⟩
    rcases h with h | h
    · exact absurd h1.1 (by linarith)
    · exact absurd h1.2 (by linarith)
  · refine ⟨⟨fun h => absurd h (by decide), fun h => absurd h h1⟩,
      ⟨fun _ => h2, fun _ => rfl⟩,
      ⟨fun h => absurd h (by decide), fun h => ?_⟩⟩
    rcases h with h | h
    · exact absurd h2.1 (by linarith)
    · exact absurd h2.2 (by linarith)
  · refine ⟨⟨fun h => absurd h (by decide), fun h => absurd h h1⟩,
      ⟨fun h => absurd h (by decide), fun h => absurd h h2⟩,
      ⟨fun _ => ?_, fun _ => rfl⟩⟩
    by_contra h3
    push_neg at h3
    have hx : ¬lon ≤ -30 := fun hle => h1 ⟨h3.1, hle⟩
    exact h2 ⟨not_le.mp hx, h3.2⟩

theorem length_setEntry_le {α : Type} (k : String) (v : α) (l : List (String × α)) :
    (setEntry k v l).length ≤ l.length + 1 := by
  induction l with
  | nil => simp [setEntry]
  | cons e rest ih =>
    obtain ⟨k0, v0⟩ := e
    simp only [setEntry]
    split
    · simp
    · simpa using Nat.succ_le_succ ih

theorem setEntry_of_not_mem {α : Type} {k : String} {l : List (String × α)} (v : α)
    (h : k ∉ l.map Prod.fst) : setEntry k v l = l ++ [(k, v)] := by
  induction l with
  | nil => rfl
  | cons e rest ih =>
    obtain ⟨k0, v0⟩ := e
    simp only [List.map, List.mem_cons, not_or] at h
    have hne : ¬k0 = k := fun hk => h.1 hk.symm
    simp only [setEntry, if_neg hne, List.cons_append, List.cons.injEq, true_and]
    exact ih h.2

theorem mem_map_fst_setEntry {α : Type} {a k : String} {v : α} {l : List (String × α)}
    (h : a ∈ (setEntry k v l).map Prod.fst) : a ∈ l.map Prod.fst ∨ a = k := by
  induction l with
  | nil => simpa [setEntry] using h
  | cons e rest ih =>
    obtain ⟨k0, v0⟩ := e
    simp only [setEntry] at h
    by_cases hk : k0 = k
    · rw [if_pos hk] at h
      simp only [List.map, List.mem_cons] at h ⊢
      rcases h with h | h
      · exact Or.inl (Or.inl h)
      · exact Or.inl (Or.inr h)
    · rw [if_neg hk] at h
      simp only [List.map, List.mem_cons] at h ⊢
      rcases h with h | h
      · exact Or.inl (Or.inl h)
      · rcases ih h with h2 | h2
        · exact Or.inl (Or.inr h2)
        · exact Or.inr h2

theorem get_snd_fields {α : Type} (c : Cache α) (k : String) :
    ((c.get k).2).entries = c.entries ∧ ((c.get k).2).maxSize = c.maxSize := by
  unfold Cache.get
  cases c.entries.lookup k <;> simp

theorem applyOp_maxSize {α : Type} (c : Cache α) (op : CacheOp α) :
    (c.applyOp op).maxSize = c.maxSize := by
  cases op with
  | get k => exact (get_snd_fields c k).2
  | set k v => rfl
  | clearOp => rfl

theorem applyOp_length_le {α : Type} (c : Cache α) (op : CacheOp α)
    (hmax : 1 ≤ c.maxSize) (h : c.entries.length ≤ c.maxSize) :
    (c.applyOp op).entries.length ≤ c.maxSize := by
  cases op with
  | get k =>
    show (((c.get k).2).entries).length ≤ c.maxSize
    rw [(get_snd_fields c k).1]
    exact h
  | clearOp =>
    show ((c.clearAll).entries).length ≤ c.maxSize
    exact Nat.zero_le _
  | set k v =>
    show ((c.set k v).entries).length ≤ c.maxSize
    unfold Cache.set
    by_cases hfull : c.maxSize ≤ c.entries.length
    · have h1 : 1 ≤ c.entries.length := le_trans hmax hfull
      have := length_setEntry_le k v c.entries.tail
      simp only [hfull, if_pos]
      calc (setEntry k v c.entries.tail).length
          ≤ c.entries.tail.length + 1 := length_setEntry_le k v c.entries.tail
        _ = c.entries.length := by rw [List.length_tail]; omega
        _ ≤ c.maxSize := h
    · have hlt : c.entries.length < c.maxSize := lt_of_not_le hfull
      simp only [hfull, if_neg, if_false]
      calc (setEntry k v c.entries).length
          ≤ c.entries.length + 1 := length_setEntry_le k v c.entries
        _ ≤ c.maxSize := hlt

theorem run_length_le {α : Type} (ops : List (CacheOp α)) (c : Cache α)
    (hmax : 1 ≤ c.maxSize) (h : c.entries.length ≤ c.maxSize) :
    ((c.run ops).entries).length ≤ (c.run ops).maxSize := by
  induction ops generalizing c with
  | nil => exact h
  | cons op rest ih =>
    show (((c.applyOp op).run rest).entries).length ≤ ((c.applyOp op).run rest).maxSize
    exact ih (c.applyOp op) (by rw [applyOp_maxSize]; exact hmax)
      (by rw [applyOp_maxSize]; exact applyOp_length_le c op hmax h)

theorem run_maxSize {α : Type} (ops : List (CacheOp α)) (c : Cache α) :
    (c.run ops).maxSize = c.maxSize := by
  induction ops generalizing c with
  | nil => rfl
  | cons op rest ih =>
    show ((c.applyOp op).run rest).maxSize = c.maxSize
    rw [ih, applyOp_maxSize]

theorem run_entries_setsFold {α : Type} (ops : List (CacheOp α)) (c : Cache α)
    (h : CacheOp.clearOp ∉ ops) :
    (c.run ops).entries = setsFold c.maxSize c.entries (setOps ops) := by
  induction ops generalizing c with
  | nil => rfl
  | cons op rest ih =>
    have hop : op ≠ CacheOp.clearOp := fun he => h (he ▸ List.mem_cons_self op rest)
    have hrest : CacheOp.clearOp ∉ rest := fun he => h (List.mem_cons_of_mem op he)
    cases op with
    | get k =>
      show ((c.applyOp (CacheOp.get k)).run rest).entries = _
      rw [ih _ hrest]
      have hfield := get_snd_fields c k
      show setsFold ((c.get k).2).maxSize ((c.get k).2).entries (setOps rest) = _
      rw [hfield.1, hfield.2]
      rfl
    | set k v =>
      show ((c.set k v).run rest).entries = _
      rw [ih _ hrest]
      rfl
    | clearOp => exact absurd rfl hop

theorem setsFold_fill {α : Type} (ss es : List (String × α)) (maxSize : Nat)
    (hnd : ((es ++ ss).map Prod.fst).Nodup)
    (hlen : es.length + ss.length ≤ maxSize) :
    setsFold maxSize es ss = es ++ ss := by
  induction ss generalizing es with
  | nil => simp [setsFold]
  | cons e rest ih =>
    obtain ⟨k, v⟩ := e
    have hnotfull : ¬maxSize ≤ es.length := by
      simp only [List.length_cons] at hlen
      omega
    have hk : k ∉ es.map Prod.fst := by
      rw [List.map_append, List.nodup_append] at hnd
      exact fun hmem => hnd.2.2 hmem (by simp)
    have h2 : (es ++ [(k, v)]) ++ rest = es ++ (k, v) :: rest := by
      simp
    have hnd2 : (((es ++ [(k, v)]) ++ rest).map Prod.fst).Nodup := by
      rw [h2]
      exact hnd
    have hlen2 : (es ++ [(k, v)]).length + rest.length ≤ maxSize := by
      simp only [List.length_append, List.length_cons, List.length_nil] at hlen ⊢
      omega
    show setsFold maxSize (setEntry k v (if maxSize ≤ es.length then es.tail else es)) rest
        = es ++ (k, v) :: rest
    rw [if_neg hnotfull, setEntry_of_not_mem v hk, ih (es ++ [(k, v)]) hnd2 hlen2, h2]

theorem setsFold_evict {α : Type} (ss es : List (String × α)) (maxSize : Nat)
    (hmax : 1 ≤ maxSize)
    (hnd : ((es ++ ss).map Prod.fst).Nodup)
    (hlen : es.length + ss.length = maxSize + 1) (hes : es.length ≤ maxSize) :
    setsFold maxSize es ss = (es ++ ss).tail := by
  induction ss generalizing es with
  | nil => simp only [List.length_nil] at hlen; omega
  | cons e rest ih =>
    obtain ⟨k, v⟩ := e
    by_cases hfull : maxSize ≤ es.length
    · have heq : es.length = maxSize := le_antisymm hes hfull
      have hrest : rest = [] := by
        have : rest.length = 0 := by simp only [List.length_cons] at hlen; omega
        exact List.length_eq_zero.mp this
      subst hrest
      obtain ⟨e0, es', hes0⟩ : ∃ e0 es', es = e0 :: es' := by
        cases es with
        | nil => simp at heq; omega
        | cons a l => exact ⟨a, l, rfl⟩
      subst hes0
      have hk : k ∉ (e0 :: es').tail.map Prod.fst := by
        rw [List.map_append, List.nodup_append] at hnd
        intro hmem
        exact hnd.2.2 (by
          simp only [List.tail_cons] at hmem
          simp only [List.map, List.mem_cons]
          exact Or.inr hmem) (by simp)
      show setsFold maxSize (setEntry k v (if maxSize ≤ (e0 :: es').length
          then (e0 :: es').tail else e0 :: es')) [] = _
      rw [if_pos hfull, setEntry_of_not_mem v hk]
      rfl
    · have hlt : es.length < maxSize := lt_of_not_le hfull
      have hk : k ∉ es.map Prod.fst := by
        rw [List.map_append, List.nodup_append] at hnd
        exact fun hmem => hnd.2.2 hmem (by simp)
      have h2 : (es ++ [(k, v)]) ++ rest = es ++ (k, v) :: rest := by
        simp
      have hnd2 : (((es ++ [(k, v)]) ++ rest).map Prod.fst).Nodup := by
        rw [h2]
        exact hnd
      have hlen2 : (es ++ [(k, v)]).length + rest.length = maxSize + 1 := by
        simp only [List.length_append, List.length_cons, List.length_nil] at hlen ⊢
        omega
      have hes2 : (es ++ [(k, v)]).length ≤ maxSize := by
        simp only [List.length_append, List.length_cons, List.length_nil]
        omega
      show setsFold maxSize (setEntry k v (if maxSize ≤ es.length then es.tail else es)) rest
          = (es ++ (k, v) :: rest).tail
      rw [if_neg hfull, setEntry_of_not_mem v hk, ih (es ++ [(k, v)]) hnd2 hlen2 hes2, h2]

/-- C2: inserting max_size + 1 distinct keys into the cache (default
max_size 1000) evicts exactly the first inserted key regardless of which
keys were read in between (FIFO by insertion order, not recency); get on
a present key increments hits by one and returns its value, get on an
absent key increments misses by one and returns nothing. -/
theorem cache_fifo_eviction_and_counters :
    (Cache.empty Nat).maxSize = 1000
    ∧ (∀ (c : Cache Nat) (k : String),
        (∀ v, c.entries.lookup k = some v →
          c.get k = (some v, { c with hits := c.hits + 1 }))
        ∧ (c.entries.lookup k = none →
          c.get k = (none, { c with misses := c.misses + 1 })))
    ∧ (∀ (maxSize : Nat) (ops : List (CacheOp Nat)),
        1 ≤ maxSize → CacheOp.clearOp ∉ ops →
        (setOps ops).length = maxSize + 1 →
        ((setOps ops).map Prod.fst).Nodup →
        ((Cache.empty Nat maxSize).run ops).entries = (setOps ops).tail) := by
  refine ⟨rfl, fun c k => ⟨fun v h => ?_, fun h => ?_⟩, fun maxSize ops hmax hclear hlen hnd => ?_⟩
  · unfold Cache.get; rw [h]
  · unfold Cache.get; rw [h]
  · rw [run_entries_setsFold ops _ hclear]
    exact setsFold_evict (setOps ops) [] maxSize hmax (by simpa using hnd) (by simpa using hlen)
      (Nat.zero_le _)

/-- C2 witness: with max_size 2, setting three distinct keys with reads
interleaved leaves exactly the second and third keys. -/
theorem cache_fifo_eviction_witness :
    ((Cache.empty Nat 2).run [CacheOp.set "a" 1, CacheOp.get "a", CacheOp.set "b" 2,
      CacheOp.get "a", CacheOp.set "c" 3]).entries = [("b", 2), ("c", 3)] :=
  (cache_fifo_eviction_and_counters.2.2 2 _ (by decide) (by decide) (by decide)
    (by decide)).trans (by decide)

/-- C10: starting from an empty cache with max_size at least 1, no
sequence of get/set/clear operations makes the entry count exceed
max_size; and a set on a cache holding its maximum always deletes the
insertion-order-first entry before storing, even when the stored key is
itself that first entry (which is then re-inserted last). -/
theorem cache_bound_and_full_set_eviction :
    (∀ (maxSize : Nat) (ops : List (CacheOp Nat)), 1 ≤ maxSize →
      (((Cache.empty Nat maxSize).run ops).entries).length ≤ maxSize)
    ∧ (∀ (c : Cache Nat) (k : String) (v : Nat) (k0 : String) (v0 : Nat)
        (rest : List (String × Nat)),
        c.entries = (k0, v0) :: rest → c.entries.length = c.maxSize →
        (c.set k v).entries = setEntry k v rest
        ∧ (k = k0 → k0 ∉ rest.map Prod.fst →
            (c.set k v).entries = rest ++ [(k0, v)])
        ∧ (k ≠ k0 → k0 ∉ rest.map Prod.fst →
            k0 ∉ ((c.set k v).entries).map Prod.fst)) := by
  constructor
  · intro maxSize ops hmax
    have h := run_length_le ops (Cache.empty Nat maxSize) hmax (Nat.zero_le _)
    rwa [run_maxSize] at h
  · intro c k v k0 v0 rest hentries hfull
    have hle : c.maxSize ≤ c.entries.length := le_of_eq hfull.symm
    have hle2 : c.maxSize ≤ ((k0, v0) :: rest).length := by
      rw [← hentries]
      exact hle
    have hset : (c.set k v).entries = setEntry k v rest := by
      unfold Cache.set
      simp only [hentries, if_pos hle2, List.tail_cons]
    refine ⟨hset, fun hk hmem => ?_, fun hk hmem hbad => ?_⟩
    · rw [hset, hk, setEntry_of_not_mem v hmem]
    · rw [hset] at hbad
      rcases mem_map_fst_setEntry hbad with h | h
      · exact hmem h
      · exact hk h.symm

/-- C3: check_quality returns overall_score equal to the weighted average
of the readability/completeness/consistency scores with weights
0.4/0.3/0.3, which for the fixed scores 0.85/0.90/0.95 is 0.895, and
passed holds exactly when overall_score is at least 0.8 and no issue has
severity critical. -/
theorem quality_weighted_average_and_passed :
    (∀ content : String,
      (qualityCheckerCheckQuality content).overallScore
        = ((85/100) * (4/10) + (90/100) * (3/10) + (95/100) * (3/10)) / (4/10 + 3/10 + 3/10)
      ∧ (qualityCheckerCheckQuality content).overallScore = 895/1000
      ∧ (qualityCheckerCheckQuality content).passed = true)
    ∧ (∀ ms : List (String × ℚ × Except String ℚ),
        (checkQuality ms).passed = true ↔
          (8/10 ≤ (checkQuality ms).overallScore
           ∧ ∀ i ∈ (checkQuality ms).issues, i.severity ≠ "critical")) := by
  constructor
  · intro content
    refine ⟨?_, ?_, ?_⟩ <;>
      simp [qualityCheckerCheckQuality, checkQuality, qualityCheckerMetrics, metricOutcome,
        readabilityCalculate, completenessCalculate, consistencyCalculate] <;>
      norm_num
  · intro ms
    simp only [checkQuality, Bool.and_eq_true, decide_eq_true_eq, Bool.not_eq_true',
      List.any_eq_false, beq_iff_eq]

/-- C3 witness: the weighted average and the passing verdict at a
concrete content string. -/
theorem quality_weighted_average_witness :
    (qualityCheckerCheckQuality "sample document").overallScore = 895/1000
    ∧ (qualityCheckerCheckQuality "sample document").passed = true :=
  ⟨(quality_weighted_average_and_passed.1 "sample document").2.1,
   (quality_weighted_average_and_passed.1 "sample document").2.2⟩

theorem stepCompletes_iff (s : GateStep) :
    stepCompletes s = true ↔ s.validation.valid = true ∧ ∃ d, s.exec = ExecOutcome.done d := by
  unfold stepCompletes
  cases h : s.exec <;> simp [h]

theorem gate0Loop_append_invalid (pre post : List GateStep) (s : GateStep)
    (acc : List (String × String))
    (hpre : ∀ t ∈ pre, stepCompletes t = true) (hs : s.validation.valid = false) :
    gate0Loop acc (pre ++ s :: post)
      = (Except.ok { status := "failed", step := some s.name, reason := s.validation.reason },
         pre.map GateStep.name) := by
  induction pre generalizing acc with
  | nil => simp [gate0Loop, hs]
  | cons t pre ih =>
    obtain ⟨hv, d, hd⟩ := (stepCompletes_iff t).mp (hpre t (List.mem_cons_self t pre))
    have ih2 := ih (acc ++ [(t.name, d)]) (fun u hu => hpre u (List.mem_cons_of_mem t hu))
    simp only [List.cons_append, gate0Loop, hv, if_true, hd, List.append_eq, ih2, List.map_cons]

theorem gateCatchLoop_append_invalid (pre post : List GateStep) (s : GateStep)
    (acc : List (String × String))
    (hpre : ∀ t ∈ pre, stepCompletes t = true) (hs : s.validation.valid = false) :
    gateCatchLoop acc (pre ++ s :: post)
      = ({ status := "failed", step := some s.name, reason := s.validation.reason },
         pre.map GateStep.name) := by
  induction pre generalizing acc with
  | nil => simp [gateCatchLoop, hs]
  | cons t pre ih =>
    obtain ⟨hv, d, hd⟩ := (stepCompletes_iff t).mp (hpre t (List.mem_cons_self t pre))
    have ih2 := ih (acc ++ [(t.name, d)]) (fun u hu => hpre u (List.mem_cons_of_mem t hu))
    simp only [List.cons_append, gateCatchLoop, hv, if_true, hd, List.append_eq, ih2, List.map_cons]

theorem gate0Loop_append_raised (pre post : List GateStep) (s : GateStep) (m : String)
    (acc : List (String × String))
    (hpre : ∀ t ∈ pre, stepCompletes t = true) (hv : s.validation.valid = true)
    (he : s.exec = ExecOutcome.raised m) :
    gate0Loop acc (pre ++ s :: post)
      = (Except.error m, pre.map GateStep.name ++ [s.name]) := by
  induction pre generalizing acc with
  | nil => simp [gate0Loop, hv, he]
  | cons t pre ih =>
    obtain ⟨htv, d, hd⟩ := (stepCompletes_iff t).mp (hpre t (List.mem_cons_self t pre))
    have ih2 := ih (acc ++ [(t.name, d)]) (fun u hu => hpre u (List.mem_cons_of_mem t hu))
    simp only [List.cons_append, gate0Loop, htv, if_true, hd, List.append_eq, ih2, List.map_cons,
      List.cons_append]

theorem gateCatchLoop_append_raised (pre post : List GateStep) (s : GateStep) (m : String)
    (acc : List (String × String))
    (hpre : ∀ t ∈ pre, stepCompletes t = true) (hv : s.validation.valid = true)
    (he : s.exec = ExecOutcome.raised m) :
    gateCatchLoop acc (pre ++ s :: post)
      = ({ status := "failed", step := some s.name, reason := some m },
         pre.map GateStep.name ++ [s.name]) := by
  induction pre generalizing acc with
  | nil => simp [gateCatchLoop, hv, he]
  | cons t pre ih =>
    obtain ⟨htv, d, hd⟩ := (stepCompletes_iff t).mp (hpre t (List.mem_cons_self t pre))
    have ih2 := ih (acc ++ [(t.name, d)]) (fun u hu => hpre u (List.mem_cons_of_mem t hu))
    simp only [List.cons_append, gateCatchLoop, htv, if_true, hd, List.append_eq, ih2, List.map_cons,
      List.cons_append]

/-- C1 counterexample: for Gate 0, a step that validates and whose
execute raises is not converted to a failed GateResult; execute_gate
propagates the exception to the caller. -/
theorem gate0_exception_propagates :
    gate0ExecuteGate
      [{ name := "requirements", validation := { valid := true },
         exec := ExecOutcome.raised "boom" },
       { name := "architecture", validation := { valid := true },
         exec := ExecOutcome.done "completed" },
       { name := "risk", validation := { valid := true },
         exec := ExecOutcome.done "completed" }]
      = (Except.error "boom", ["requirements"]) := rfl

/-- C1 (amended): for Gate Managers 1 through 4, if every earlier step
validates and completes, the failing step validates, and its execute
raises, execute_gate catches the exception and returns a failed
GateResult naming that step with the exception message as reason; Gate
0's execute_gate instead lets the exception propagate to the caller
(and Gate 5 has no step-based execute_gate at all). -/
theorem gate_execute_exception_handling :
    (∀ (pre post : List GateStep) (s : GateStep) (m : String),
      (∀ t ∈ pre, stepCompletes t = true) → s.validation.valid = true →
      s.exec = ExecOutcome.raised m →
      gate1ExecuteGate (pre ++ s :: post)
        = ({ status := "failed", step := some s.name, reason := some m },
           pre.map GateStep.name ++ [s.name]))
    ∧ (∀ (pre post : List GateStep) (s : GateStep) (m : String),
      (∀ t ∈ pre, stepCompletes t = true) → s.validation.valid = true →
      s.exec = ExecOutcome.raised m →
      gate0ExecuteGate (pre ++ s :: post)
        = (Except.error m, pre.map GateStep.name ++ [s.name])) :=
  ⟨fun pre post s m hpre hv he => gateCatchLoop_append_raised pre post s m [] hpre hv he,
   fun pre post s m hpre hv he => gate0Loop_append_raised pre post s m [] hpre hv he⟩

/-- C1 witness: a concrete gate whose second step raises after a
completing first step. -/
theorem gate_execute_exception_witness :
    gate1ExecuteGate
      [{ name := "documentation", validation := { valid := true },
         exec := ExecOutcome.done "completed" },
       { name := "style", validation := { valid := true },
         exec := ExecOutcome.raised "style engine crashed" },
       { name := "quality", validation := { valid := true },
         exec := ExecOutcome.done "completed" }]
      = ({ status := "failed", step := some "style", reason := some "style engine crashed" },
         ["documentation", "style"]) :=
  gate_execute_exception_handling.1
    [{ name := "documentation", validation := { valid := true },
       exec := ExecOutcome.done "completed" }]
    [{ name := "quality", validation := { valid := true },
       exec := ExecOutcome.done "completed" }]
    { name := "style", validation := { valid := true },
      exec := ExecOutcome.raised "style engine crashed" }
    "style engine crashed" (by decide) rfl rfl

/-- C6: in every step-based Gate Manager (Gates 0 through 4), when a
step's validate reports invalid after earlier steps completed,
execute_gate returns immediately with a failed GateResult naming that
step, and the execute of that step and of every later step is never
invoked (the invoked-step list is exactly the earlier steps). -/
theorem gate_invalid_short_circuit :
    ∀ (pre post : List GateStep) (s : GateStep),
      (∀ t ∈ pre, stepCompletes t = true) → s.validation.valid = false →
      gate0ExecuteGate (pre ++ s :: post)
        = (Except.ok
            { status := "failed", step := some s.name, reason := s.validation.reason },
           pre.map GateStep.name)
      ∧ gate1ExecuteGate (pre ++ s :: post)
        = ({ status := "failed", step := some s.name, reason := s.validation.reason },
           pre.map GateStep.name) :=
  fun pre post s hpre hs =>
    ⟨gate0Loop_append_invalid pre post s [] hpre hs,
     gateCatchLoop_append_invalid pre post s [] hpre hs⟩

/-- C6 witness: a concrete gate whose second step is invalid; only the
first step's execute is invoked. -/
theorem gate_invalid_short_circuit_witness :
    gate1ExecuteGate
      [{ name := "format_processing", validation := { valid := true },
         exec := ExecOutcome.done "completed" },
       { name := "template", validation := { valid := false, reason := some "missing template" },
         exec := ExecOutcome.done "completed" },
       { name := "pattern", validation := { valid := true },
         exec := ExecOutcome.done "completed" }]
      = ({ status := "failed", step := some "template", reason := some "missing template" },
         ["format_processing"]) :=
  (gate_invalid_short_circuit
    [{ name := "format_processing", validation := { valid := true },
       exec := ExecOutcome.done "completed" }]
    [{ name := "pattern", validation := { valid := true },
       exec := ExecOutcome.done "completed" }]
    { name := "template", validation := { valid := false, reason := some "missing template" },
      exec := ExecOutcome.done "completed" }
    (by decide) rfl).2

/-- C5 counterexample: running test_b before its dependency test_a has
run does not raise to the caller; run_test catches the dependency
ValueError and returns (and records) a failed TestResult. -/
theorem runTest_dependency_not_raised :
    runTest dependencyRunner "test_b"
      = Except.ok (depFailResult "test_b" "test_a",
          { tests := dependencyRunner.tests,
            results := [("test_b", depFailResult "test_b" "test_a")] },
          false) := rfl

/-- C5 (amended): for a registered test B depending on A, running B
before A has run and passed returns (not raises) a TestResult with
status failed and the dependency message, records it, and never invokes
B's function; once A is recorded passed, running B invokes its function
and (on normal return) records B as passed. -/
theorem runTest_dependency_enforcement :
    ∀ (r : TestRunner) (aId bId : String) (b : TestCaseM),
      r.tests.lookup bId = some b → b.dependencies = [aId] →
      (r.results.lookup aId = none →
        runTest r bId = Except.ok (depFailResult bId aId,
          { r with results := setEntry bId (depFailResult bId aId) r.results },
          false))
      ∧ (∀ ra, r.results.lookup aId = some ra → ra.status = "passed" →
          b.fn = FnOutcome.success →
          runTest r bId = Except.ok (passResult bId,
            { r with results := setEntry bId (passResult bId) r.results },
            true)) := by
  intro r aId bId b hb hdep
  constructor
  · intro ha
    simp [runTest, hb, hdep, depError, ha, depFailResult]
  · intro ra hra hst hfn
    simp [runTest, hb, hdep, depError, hra, hst, hfn, passResult]

/-- C5 witness: after test_a is recorded passed, running test_b invokes
its function and records test_b as passed. -/
theorem runTest_dependency_witness :
    runTest dependencyRunnerAfterA "test_b"
      = Except.ok (passResult "test_b",
          { tests := dependencyRunner.tests,
            results := [("test_a", passResult "test_a"), ("test_b", passResult "test_b")] },
          true) :=
  (runTest_dependency_enforcement dependencyRunnerAfterA "test_a" "test_b"
    { id := "test_b", dependencies := ["test_a"], fn := FnOutcome.success } rfl rfl).2
    (passResult "test_a") rfl rfl rfl

theorem releaseLock_snd_fields (s : Session) (u f : String) :
    ((s.releaseLock u f).2).locks = releaseLockL u f s.locks
    ∧ ((s.releaseLock u f).2).users = s.users
    ∧ ((s.releaseLock u f).2).sessionId = s.sessionId := by
  unfold Session.releaseLock releaseLockL
  cases h : s.locks.lookup f with
  | none => exact ⟨rfl, rfl, rfl⟩
  | some holder =>
    by_cases hu : holder = u
    · simp [hu]
    · simp [hu]

theorem foldRelease_fields (u : String) (fs : List String) (s : Session) :
    ((fs.foldl (fun st f => (st.releaseLock u f).2) s)).users = s.users
    ∧ ((fs.foldl (fun st f => (st.releaseLock u f).2) s)).locks
      = fs.foldl (fun L f => releaseLockL u f L) s.locks := by
  induction fs generalizing s with
  | nil => exact ⟨rfl, rfl⟩
  | cons f fs ih =>
    have h := releaseLock_snd_fields s u f
    simp only [List.foldl_cons]
    refine ⟨?_, ?_⟩
    · rw [(ih ((s.releaseLock u f).2)).1, h.2.1]
    · rw [(ih ((s.releaseLock u f).2)).2, h.1]

theorem releaseLockL_cons_ne (u f f0 h0 : String) (L : List (String × String))
    (hne : ¬f0 = f) :
    releaseLockL u f ((f0, h0) :: L) = (f0, h0) :: releaseLockL u f L := by
  have hbeq : (f == f0) = false := by
    rw [beq_eq_false_iff_ne]
    exact fun hh => hne hh.symm
  have hbeq2 : (f0 == f) = false := by
    rw [beq_eq_false_iff_ne]
    exact hne
  unfold releaseLockL
  have hlk : List.lookup f ((f0, h0) :: L) = List.lookup f L := by
    simp [List.lookup, hbeq]
  rw [hlk]
  cases h : L.lookup f with
  | none => rfl
  | some holder =>
    by_cases hu : holder = u
    · simp [hu, List.eraseP_cons, hbeq2]
    · simp [hu]

theorem foldRelease_cons_ne (u f0 h0 : String) (L : List (String × String))
    (fs : List String) (hne : ∀ f ∈ fs, ¬f0 = f) :
    fs.foldl (fun acc f => releaseLockL u f acc) ((f0, h0) :: L)
      = (f0, h0) :: fs.foldl (fun acc f => releaseLockL u f acc) L := by
  induction fs generalizing L with
  | nil => rfl
  | cons f fs ih =>
    simp only [List.foldl_cons]
    rw [releaseLockL_cons_ne u f f0 h0 L (hne f (List.mem_cons_self f fs))]
    exact ih (releaseLockL u f L) (fun g hg => hne g (List.mem_cons_of_mem f hg))

theorem foldl_releaseLockL_filter (u : String) :
    ∀ L : List (String × String), (L.map Prod.fst).Nodup →
    ((L.filter (fun e => e.2 == u)).map Prod.fst).foldl (fun acc f => releaseLockL u f acc) L
      = L.filter (fun e => !(e.2 == u)) := by
  intro L
  induction L with
  | nil => intro _; rfl
  | cons e L ih =>
    obtain ⟨f0, h0⟩ := e
    intro hnd
    rw [List.map_cons, List.nodup_cons] at hnd
    by_cases hh : (h0 == u) = true
    · have hfilter : ((f0, h0) :: L).filter (fun e => e.2 == u)
          = (f0, h0) :: L.filter (fun e => e.2 == u) := by
        simp [List.filter_cons, hh]
      have hstep : releaseLockL u f0 ((f0, h0) :: L) = L := by
        unfold releaseLockL
        simp [List.lookup, eq_of_beq hh, List.eraseP_cons]
      rw [hfilter, List.map_cons, List.foldl_cons, hstep, ih hnd.2]
      simp [List.filter_cons, hh]
    · have hfilter : ((f0, h0) :: L).filter (fun e => e.2 == u)
          = L.filter (fun e => e.2 == u) := by
        simp [List.filter_cons, hh]
      have hne : ∀ f ∈ (L.filter (fun e => e.2 == u)).map Prod.fst, ¬f0 = f := by
        intro f hf hf0
        obtain ⟨e2, he2, hfst⟩ := List.mem_map.mp hf
        apply hnd.1
        have he3 : e2.1 ∈ L.map Prod.fst :=
          List.mem_map_of_mem Prod.fst (List.mem_of_mem_filter he2)
        rw [hf0, ← hfst]
        exact he3
      rw [hfilter, foldRelease_cons_ne u f0 h0 L _ hne, ih hnd.2]
      simp [List.filter_cons, hh]

/-- C9 counterexample: a file held by the requesting user (not by
someone else) still makes acquire_lock fail; the code tests only
presence in the lock map, not the holder's identity. -/
theorem acquire_lock_self_reacquire_fails :
    (({ sessionId := "s1", users := ["alice"],
        locks := [("doc.md", "alice")] } : Session).acquireLock "alice" "doc.md")
      = (false, { sessionId := "s1", users := ["alice"], locks := [("doc.md", "alice")] })
    ∧ [("doc.md", "alice")].lookup "doc.md" = some "alice" := by
  constructor
  · rfl
  · rfl

/-- C9 (amended): acquire_lock fails and leaves the session unchanged
exactly when the file is already present in the lock map (regardless of
holder, including the requester), and otherwise succeeds recording the
requesting user as holder; removing a user who is in the session
releases every lock that user holds and leaves the other locks. -/
theorem session_lock_spec :
    ∀ (s : Session) (u f : String),
      ((s.locks.lookup f).isSome → s.acquireLock u f = (false, s))
      ∧ (s.locks.lookup f = none →
          s.acquireLock u f = (true, { s with locks := s.locks ++ [(f, u)] }))
      ∧ ((s.locks.map Prod.fst).Nodup → u ∈ s.users →
          (s.removeUser u).locks = s.locks.filter (fun e => !(e.2 == u))
          ∧ (s.removeUser u).users = s.users.erase u) := by
  intro s u f
  refine ⟨fun h => ?_, fun h => ?_, fun hnd hu => ?_⟩
  · unfold Session.acquireLock
    rw [if_pos h]
  · unfold Session.acquireLock
    rw [if_neg (by simp [h])]
  · unfold Session.removeUser
    rw [if_pos hu]
    unfold Session.releaseUserLocks
    exact ⟨(foldRelease_fields u _ _).2.trans (foldl_releaseLockL_filter u s.locks hnd),
      (foldRelease_fields u _ _).1⟩

/-- C9 witness: acquiring a fresh lock succeeds, and removing a session
member releases exactly that member's locks. -/
theorem session_lock_witness :
    lockSessionA.acquireLock "u1" "a.md"
      = (true, { sessionId := "s1", users := ["u1"], locks := [("a.md", "u1")] })
    ∧ (lockSessionB.removeUser "u1").locks = [("b.md", "u2")] :=
  ⟨(session_lock_spec lockSessionA "u1" "a.md").2.1 rfl,
   (((session_lock_spec lockSessionB "u1" "x").2.2 (by decide) (by decide)).1).trans
     (by decide)⟩

theorem wordChar_not_space (c : Char) (h : isWordChar c = true) : isSpaceChar c = false := by
  cases hs : isSpaceChar c
  · rfl
  · exfalso
    unfold isSpaceChar at hs
    simp only [Bool.or_eq_true, decide_eq_true_eq] at hs
    rcases hs with ((h1 | h1) | h1) | h1 <;> subst h1 <;> exact absurd h (by decide)

theorem splitRuns_sep {p : Char → Bool} {s : Char} (hs : p s = false) :
    ∀ (xs acc ys : List Char),
      splitRuns p acc (xs ++ s :: ys) = splitRuns p acc xs ++ splitRuns p [] ys := by
  intro xs
  induction xs with
  | nil =>
    intro acc ys
    show splitRuns p acc (s :: ys) = splitRuns p acc [] ++ splitRuns p [] ys
    cases hacc : acc.isEmpty <;> simp [splitRuns, hs, hacc]
  | cons c cs ih =>
    intro acc ys
    show splitRuns p acc (c :: (cs ++ s :: ys)) = splitRuns p acc (c :: cs) ++ splitRuns p [] ys
    by_cases hc : p c = true
    · simp only [splitRuns, hc, if_true]
      exact ih (c :: acc) ys
    · rw [Bool.not_eq_true] at hc
      by_cases hacc : acc.isEmpty = true
      · simp only [splitRuns, hc, Bool.false_eq_true, if_false, hacc, if_true]
        exact ih [] ys
      · rw [Bool.not_eq_true] at hacc
        simp only [splitRuns, hc, Bool.false_eq_true, if_false, hacc]
        rw [ih [] ys]
        rfl

theorem splitRuns_all_acc {p : Char → Bool} :
    ∀ (w acc : List Char), (∀ c ∈ w, p c = true) → acc.isEmpty = false →
      splitRuns p acc w = [acc.reverse ++ w] := by
  intro w
  induction w with
  | nil =>
    intro acc _ hacc
    simp [splitRuns, hacc]
  | cons c cs ih =>
    intro acc hw hacc
    have hc : p c = true := hw c (List.mem_cons_self c cs)
    simp only [splitRuns, hc, if_true]
    rw [ih (c :: acc) (fun d hd => hw d (List.mem_cons_of_mem c hd)) rfl]
    simp

theorem tokens_all {p : Char → Bool} (w : List Char) (hw : ∀ c ∈ w, p c = true)
    (hne : w ≠ []) : tokens p w = [w] := by
  cases w with
  | nil => exact absurd rfl hne
  | cons c cs =>
    have hc : p c = true := hw c (List.mem_cons_self c cs)
    show splitRuns p [] (c :: cs) = [c :: cs]
    simp only [splitRuns, hc, if_true]
    rw [splitRuns_all_acc cs [c] (fun d hd => hw d (List.mem_cons_of_mem c hd)) rfl]
    rfl

theorem tokens_sep_append {p : Char → Bool} {s : Char} (hs : p s = false)
    (xs w : List Char) (hw : ∀ c ∈ w, p c = true) (hne : w ≠ []) :
    tokens p (xs ++ s :: w) = tokens p xs ++ [w] := by
  show splitRuns p [] (xs ++ s :: w) = splitRuns p [] xs ++ [w]
  rw [splitRuns_sep hs xs [] w]
  rw [show splitRuns p [] w = [w] from tokens_all w hw hne]

theorem indicatorCount_append (content w : List Char)
    (hw : ∀ c ∈ w, isWordChar c = true) (hne : w ≠ []) (ind : String) :
    indicatorCount (content ++ ' ' :: w) ind
      = indicatorCount content ind
        + (if (w.map Char.toLower == ind.data.map Char.toLower) = true then 1 else 0) := by
  unfold indicatorCount
  rw [tokens_sep_append (by decide : isWordChar ' ' = false) content w hw hne,
    List.countP_append]
  congr 1
  simp [List.countP_cons]

theorem wordCount_append (content w : List Char)
    (hw : ∀ c ∈ w, isWordChar c = true) (hne : w ≠ []) :
    wordCount (content ++ ' ' :: w) = wordCount content + 1 := by
  unfold wordCount
  have hw2 : ∀ c ∈ w, (!isSpaceChar c) = true := by
    intro c hc
    rw [wordChar_not_space c (hw c hc)]
    rfl
  rw [tokens_sep_append (by decide : (!isSpaceChar ' ') = false) content w hw2 hne]
  simp

theorem totalOcc_append (p : Pattern) (content w : List Char)
    (hw : ∀ c ∈ w, isWordChar c = true) (hne : w ≠ []) :
    totalIndicatorOccurrences p (content ++ ' ' :: w)
      = totalIndicatorOccurrences p content
        + p.indicators.countP (fun ind => w.map Char.toLower == ind.data.map Char.toLower) := by
  unfold totalIndicatorOccurrences
  induction p.indicators with
  | nil => rfl
  | cons i l ih =>
    simp only [List.map_cons, List.sum_cons, List.countP_cons, ih,
      indicatorCount_append content w hw hne i]
    by_cases hmatch : (w.map Char.toLower == i.data.map Char.toLower) = true
    · simp only [hmatch, if_true]
      omega
    · rw [Bool.not_eq_true] at hmatch
      simp only [hmatch, Bool.false_eq_true, if_false]
      omega

theorem matched_le_append (p : Pattern) (content w : List Char)
    (hw : ∀ c ∈ w, isWordChar c = true) (hne : w ≠ []) :
    matchedIndicatorCount p content ≤ matchedIndicatorCount p (content ++ ' ' :: w) := by
  unfold matchedIndicatorCount
  apply List.countP_mono_left
  intro ind hmem h
  rw [decide_eq_true_iff] at h
  rw [decide_eq_true_iff, indicatorCount_append content w hw hne ind]
  omega

theorem patternConfidence_eval (p : Pattern) (c : List Char) (mk tot wc len : ℕ)
    (hm : matchedIndicatorCount p c = mk) (ht : totalIndicatorOccurrences p c = tot)
    (hw : wordCount c = wc) (hl : p.indicators.length = len) :
    patternConfidence p c
      = min ((mk : ℚ) / (len : ℚ) * (1 + (tot : ℚ) / ((wc : ℚ) + 1))) 1 := by
  unfold patternConfidence baseConfidence frequencyFactor
  rw [hm, ht, hw, hl]

/-- C4 counterexample: with content "config,config,config" (three
whole-word occurrences of config inside one whitespace word), appending
one more whole-word occurrence of config strictly decreases the
configuration pattern's frequency_factor (3/2 to 4/3) and its confidence
(5/8 to 7/12). -/
theorem frequency_factor_not_monotone :
    "config,config,config config".data
      = "config,config,config".data ++ ' ' :: "config".data
    ∧ 0 < indicatorCount "config,config,config".data "config"
    ∧ frequencyFactor configurationPattern "config,config,config config".data
        < frequencyFactor configurationPattern "config,config,config".data
    ∧ patternConfidence configurationPattern "config,config,config config".data
        < patternConfidence configurationPattern "config,config,config".data := by
  refine ⟨rfl, by decide, ?_, ?_⟩
  · unfold frequencyFactor
    rw [div_lt_div_iff₀ (by positivity) (by positivity)]
    exact_mod_cast (by decide :
      totalIndicatorOccurrences configurationPattern "config,config,config config".data
          * (wordCount "config,config,config".data + 1)
        < totalIndicatorOccurrences configurationPattern "config,config,config".data
          * (wordCount "config,config,config config".data + 1))
  · have e1 := patternConfidence_eval configurationPattern "config,config,config".data
      1 3 1 4 (by decide) (by decide) (by decide) rfl
    have e2 := patternConfidence_eval configurationPattern "config,config,config config".data
      1 4 2 4 (by decide) (by decide) (by decide) rfl
    rw [e1, e2, min_eq_left (by norm_num), min_eq_left (by norm_num)]
    norm_num

/-- C4 (amended): appending one more whole-word occurrence of an
already-present indicator of a pattern never decreases frequency_factor
or confidence, provided the pattern's total indicator occurrence count
does not exceed the whitespace word count plus one (always the case when
indicator occurrences are whitespace-delimited words; violated only when
several regex word matches share one whitespace word, as in the
counterexample). -/
theorem pattern_confidence_monotone :
    ∀ (p : Pattern) (content : List Char) (ind : String),
      (∀ c ∈ ind.data, isWordChar c = true) → ind.data ≠ [] →
      ind ∈ p.indicators →
      0 < indicatorCount content ind →
      totalIndicatorOccurrences p content ≤ wordCount content + 1 →
      frequencyFactor p content ≤ frequencyFactor p (content ++ ' ' :: ind.data)
      ∧ patternConfidence p content ≤ patternConfidence p (content ++ ' ' :: ind.data) := by
  intro p content ind hw hne hmem hocc hbound
  have hm : 0 < p.indicators.countP
      (fun i => ind.data.map Char.toLower == i.data.map Char.toLower) :=
    List.countP_pos_iff.mpr ⟨ind, hmem, by simp⟩
  have htot := totalOcc_append p content ind.data hw hne
  have hwc := wordCount_append content ind.data hw hne
  have hff : frequencyFactor p content ≤ frequencyFactor p (content ++ ' ' :: ind.data) := by
    unfold frequencyFactor
    rw [htot, hwc]
    rw [div_le_div_iff₀ (by positivity) (by positivity)]
    have key : totalIndicatorOccurrences p content * (wordCount content + 1 + 1)
        ≤ (totalIndicatorOccurrences p content
            + p.indicators.countP
              (fun i => ind.data.map Char.toLower == i.data.map Char.toLower))
          * (wordCount content + 1) := by
      have h2 : totalIndicatorOccurrences p content
          ≤ p.indicators.countP
              (fun i => ind.data.map Char.toLower == i.data.map Char.toLower)
            * (wordCount content + 1) :=
        le_trans hbound (Nat.le_mul_of_pos_left _ hm)
      nlinarith
    push_cast
    exact_mod_cast key
  have hbase : baseConfidence p content ≤ baseConfidence p (content ++ ' ' :: ind.data) := by
    unfold baseConfidence
    have hlen : (0:ℚ) < (p.indicators.length : ℚ) := by
      have h1 : 0 < p.indicators.length := List.length_pos.mpr (List.ne_nil_of_mem hmem)
      exact_mod_cast h1
    rw [div_le_div_iff_of_pos_right hlen]
    exact_mod_cast matched_le_append p content ind.data hw hne
  have hbase0 : (0:ℚ) ≤ baseConfidence p (content ++ ' ' :: ind.data) := by
    unfold baseConfidence
    positivity
  have hff0 : (0:ℚ) ≤ frequencyFactor p content := by
    unfold frequencyFactor
    positivity
  refine ⟨hff, ?_⟩
  unfold patternConfidence
  refine min_le_min ?_ le_rfl
  exact mul_le_mul hbase (by linarith) (by linarith) hbase0

/-- C4 witness: a content string of whitespace-delimited words; appending
one more config occurrence does not decrease the configuration pattern's
confidence. -/
theorem pattern_confidence_monotone_witness :
    0 < indicatorCount "config setting alpha beta gamma delta".data "config"
    ∧ totalIndicatorOccurrences configurationPattern
        "config setting alpha beta gamma delta".data
      ≤ wordCount "config setting alpha beta gamma delta".data + 1
    ∧ patternConfidence configurationPattern "config setting alpha beta gamma delta".data
        ≤ patternConfidence configurationPattern
            ("config setting alpha beta gamma delta".data ++ ' ' :: "config".data) :=
  ⟨by decide, by decide,
   (pattern_confidence_monotone configurationPattern
     "config setting alpha beta gamma delta".data "config"
     (by decide) (by decide) (by decide) (by decide) (by decide)).2⟩

/-- C8: the suggestion table is keyed by the library dictionary keys
(api_endpoint, ...), but _get_pattern_suggestion looks it up with the
pattern's display name (API Endpoint, ...), so every library pattern
receives the generic fallback; in particular a full-confidence
api_endpoint match is recommended with "Consider adding more details"
although the table holds a dedicated suggestion for it. -/
theorem pattern_suggestion_always_fallback :
    generateRecommendations (findPatterns "GET POST PUT DELETE endpoint route".data)
      = [("API Endpoint", 1, "Consider adding more details")]
    ∧ suggestionTable.lookup "api_endpoint"
      = some "Consider adding request/response examples"
    ∧ (libraryPatterns.map (fun e => getPatternSuggestion e.2))
      = ["Consider adding more details", "Consider adding more details",
         "Consider adding more details", "Consider adding more details",
         "Consider adding more details"] := by
  have hapi : patternConfidence apiEndpointPattern
      "GET POST PUT DELETE endpoint route".data = 1 := by
    rw [patternConfidence_eval apiEndpointPattern _ 6 6 6 6
      (by decide) (by decide) (by decide) rfl, min_eq_right (by norm_num)]
  have hclass : patternConfidence classDefinitionPattern
      "GET POST PUT DELETE endpoint route".data = 0 := by
    rw [patternConfidence_eval classDefinitionPattern _ 0 0 6 4
      (by decide) (by decide) (by decide) rfl, min_eq_left (by norm_num)]
    norm_num
  have hfun : patternConfidence functionDefinitionPattern
      "GET POST PUT DELETE endpoint route".data = 0 := by
    rw [patternConfidence_eval functionDefinitionPattern _ 0 0 6 4
      (by decide) (by decide) (by decide) rfl, min_eq_left (by norm_num)]
    norm_num
  have hcfg : patternConfidence configurationPattern
      "GET POST PUT DELETE endpoint route".data = 0 := by
    rw [patternConfidence_eval configurationPattern _ 0 0 6 4
      (by decide) (by decide) (by decide) rfl, min_eq_left (by norm_num)]
    norm_num
  have htut : patternConfidence tutorialPattern
      "GET POST PUT DELETE endpoint route".data = 0 := by
    rw [patternConfidence_eval tutorialPattern _ 0 0 6 4
      (by decide) (by decide) (by decide) rfl, min_eq_left (by norm_num)]
    norm_num
  refine ⟨?_, rfl, rfl⟩
  unfold findPatterns generateRecommendations
  simp only [libraryPatterns, List.map_cons, List.map_nil, List.filterMap_cons,
    List.filterMap_nil, hapi, hclass, hfun, hcfg, htut]
  norm_num [List.insertionSort, List.orderedInsert, getPatternSuggestion, suggestionTable,
    List.lookup, apiEndpointPattern, List.filterMap_cons, List.filterMap_nil]
  decide

/-- C10 witness: a full two-entry cache updated at its first-inserted key
still evicts that first entry and re-inserts the key last. -/
theorem cache_bound_witness :
    (((Cache.empty Nat 3).run [CacheOp.set "a" 1, CacheOp.set "b" 2]).entries).length ≤ 3
    ∧ (({ entries := [("a", 1), ("b", 2)], maxSize := 2, hits := 0, misses := 0 } :
        Cache Nat).set "a" 9).entries = [("b", 2), ("a", 9)] :=
  ⟨cache_bound_and_full_set_eviction.1 3 _ (by decide),
    ((cache_bound_and_full_set_eviction.2 _ "a" 9 "a" 1 [("b", 2)] rfl rfl).2.1 rfl
      (by decide)).trans (by decide)⟩

end TDGen
